import Mathlib

/-!
Verification of the statistical monitoring core of the System_web repository
(`src/ae.py` and `src/Pca.py`).

The Python code is shallowly embedded over exact rationals (`ℚ` stands for
the IEEE doubles of numpy/pandas/torch; all the claims under study are about
exact arithmetic relationships, so the embedding keeps the arithmetic exact).
Fallible Python code (exceptions caught by the callers) is embedded with
`Option`/`Except`.  Stateful methods take and return an explicit state value.
-/

namespace SystemWeb

/-! ## Basic numpy-like list helpers -/

/-- Python `min(xs)` on a nonempty list (`0` is a junk value for `[]`,
where Python raises). -/
def pymin : List ℚ → ℚ
  | [] => 0
  | a :: as => as.foldl min a

/-- Python `max(xs)` on a nonempty list (`0` is a junk value for `[]`,
where Python raises). -/
def pymax : List ℚ → ℚ
  | [] => 0
  | a :: as => as.foldl max a

theorem foldl_min_le_init (l : List ℚ) : ∀ a : ℚ, l.foldl min a ≤ a := by
  induction l with
  | nil => intro a; simp
  | cons b bs ih =>
    intro a
    calc (b :: bs).foldl min a = bs.foldl min (min a b) := by simp [List.foldl]
    _ ≤ min a b := ih (min a b)
    _ ≤ a := min_le_left a b

theorem init_le_foldl_max (l : List ℚ) : ∀ a : ℚ, a ≤ l.foldl max a := by
  induction l with
  | nil => intro a; simp
  | cons b bs ih =>
    intro a
    calc a ≤ max a b := le_max_left a b
    _ ≤ bs.foldl max (max a b) := ih (max a b)
    _ = (b :: bs).foldl max a := by simp [List.foldl]

theorem pymin_le_pymax (s : List ℚ) (hs : s ≠ []) : pymin s ≤ pymax s := by
  cases s with
  | nil => exact absurd rfl hs
  | cons a as =>
    calc pymin (a :: as) = as.foldl min a := rfl
    _ ≤ a := foldl_min_le_init as a
    _ ≤ as.foldl max a := init_le_foldl_max as a
    _ = pymax (a :: as) := rfl

/-! ## Anomaly classifier (`AEAnalyzer.detect_anomalies`, src/ae.py lines 195-207)

```python
anomaly_mask = statistics > control_limit
anomaly_indices = np.where(anomaly_mask)[0]
anomaly_count = len(anomaly_indices)
anomaly_percentage = (anomaly_count / len(statistics)) * 100
```
On an empty statistics array Python raises `ZeroDivisionError`; the embedding
returns `none` there. -/

structure AnomalyResult where
  mask : List Bool
  indices : List ℕ
  count : ℕ
  percentage : ℚ
  deriving Repr, DecidableEq

def detect_anomalies (statistics : List ℚ) (control_limit : ℚ) :
    Option AnomalyResult :=
  if statistics.length = 0 then none
  else
    let mask := statistics.map (fun s => decide (control_limit < s))
    let indices := (List.range statistics.length).filter
      (fun i => decide (control_limit < statistics.getD i 0))
    some { mask := mask
           indices := indices
           count := indices.length
           percentage := ((indices.length : ℚ) / (statistics.length : ℚ)) * 100 }

/-- C1: for every statistic array `S` and control limit `L`, `detect_anomalies`
marks index `i` anomalous iff `S[i] > L` (strict), returns the exceeding
indices ascending in observation order, its count equals the length of the
index list, and its percentage equals `100 * count / len(S)`. -/
theorem C1_detect_anomalies_spec (S : List ℚ) (L : ℚ) (hS : S ≠ []) :
    ∃ r, detect_anomalies S L = some r ∧
      r.mask.length = S.length ∧
      (∀ (i : ℕ) (v : ℚ), S[i]? = some v → r.mask[i]? = some (decide (L < v))) ∧
      (∀ i : ℕ, i ∈ r.indices ↔ ∃ v, S[i]? = some v ∧ L < v) ∧
      List.Sorted (· < ·) r.indices ∧
      r.count = r.indices.length ∧
      r.percentage = 100 * (r.count : ℚ) / (S.length : ℚ) := by
  have h0 : ¬ (S.length = 0) := by simpa using hS
  simp only [detect_anomalies, if_neg h0]
  refine ⟨_, rfl, ?_, ?_, ?_, ?_, rfl, ?_⟩
  · simp
  · intro i v hv
    simp [List.getElem?_map, hv]
  · intro i
    simp only [List.mem_filter, List.mem_range, decide_eq_true_eq]
    constructor
    · rintro ⟨hi, hlt⟩
      have he : S[i]? = some S[i] := List.getElem?_eq_getElem hi
      have hd : S.getD i 0 = S[i] := by
        rw [List.getD_eq_getElem?_getD, he]
        rfl
      exact ⟨S[i], he, by rwa [hd] at hlt⟩
    · rintro ⟨v, hv, hlt⟩
      rcases List.getElem?_eq_some.1 hv with ⟨hi, hval⟩
      refine ⟨hi, ?_⟩
      have hd : S.getD i 0 = v := by
        rw [List.getD_eq_getElem?_getD, hv]
        rfl
      rwa [hd]
  · exact (List.pairwise_lt_range _).filter _
  · simp only
    ring

/-- Witness for C1 at a concrete input. -/
theorem C1_detect_anomalies_spec_witness :
    ∃ r, detect_anomalies [1, 3, 2] 2 = some r ∧
      r.mask.length = ([1, 3, 2] : List ℚ).length ∧
      (∀ (i : ℕ) (v : ℚ), ([1, 3, 2] : List ℚ)[i]? = some v →
        r.mask[i]? = some (decide ((2 : ℚ) < v))) ∧
      (∀ i : ℕ, i ∈ r.indices ↔ ∃ v, ([1, 3, 2] : List ℚ)[i]? = some v ∧ (2 : ℚ) < v) ∧
      List.Sorted (· < ·) r.indices ∧
      r.count = r.indices.length ∧
      r.percentage = 100 * (r.count : ℚ) / (([1, 3, 2] : List ℚ).length : ℚ) :=
  C1_detect_anomalies_spec [1, 3, 2] 2 (by simp)

/-! ## Autoencoder architecture (`AutoEncoder.__init__`, src/ae.py lines 19-43,
and `AEAnalyzer.train_model`, lines 108-115) -/

structure AEArchitecture where
  encoder_layers : List (ℕ × ℕ)
  decoder_layers : List (ℕ × ℕ)
  deriving Repr, DecidableEq

/-- `AutoEncoder.__init__(input_dim, encoding_dim)`: the `nn.Linear` shapes of
the encoder stack (`input_dim → 64 → 32 → encoding_dim`) and the decoder stack
(`encoding_dim → 32 → 64 → input_dim`). -/
def AutoEncoder_init (input_dim encoding_dim : ℕ) : AEArchitecture :=
  { encoder_layers := [(input_dim, 64), (64, 32), (32, encoding_dim)]
    decoder_layers := [(encoding_dim, 32), (32, 64), (64, input_dim)] }

/-- `train_model`: `encoding_dim = max(2, input_dim // 4)` (src/ae.py line 112). -/
def train_model_encoding_dim (input_dim : ℕ) : ℕ := max 2 (input_dim / 4)

/-- `train_model` builds `AutoEncoder(input_dim, encoding_dim)` (src/ae.py line 115). -/
def train_model_architecture (input_dim : ℕ) : AEArchitecture :=
  AutoEncoder_init input_dim (train_model_encoding_dim input_dim)

/-- The latent (encoding) width of an architecture: output width of the last
encoder layer. -/
def latent_dim (a : AEArchitecture) : ℕ := (a.encoder_layers.getLastD (0, 0)).2

/-- C8: for every `input_dim`, the latent dimension of the trained autoencoder
equals `max 2 (input_dim / 4)` (Python `max(2, input_dim // 4)`); in
particular `input_dim = 8` yields `encoding_dim = 2`. -/
theorem C8_encoding_dim_spec :
    (∀ input_dim : ℕ,
      latent_dim (train_model_architecture input_dim) = max 2 (input_dim / 4)) ∧
    latent_dim (train_model_architecture 8) = 2 := by
  constructor
  · intro input_dim
    rfl
  · rfl

/-! ## Autoencoder statistics (`AEAnalyzer.calculate_statistics`, src/ae.py
lines 168-187)

```python
if not self.is_trained:
    raise ValueError("模型尚未训练")
...
reconstruction_error = X_data - X_reconstructed
spe = torch.sum(reconstruction_error ** 2, dim=1)
re2 = torch.max(reconstruction_error ** 2, dim=1)[0]
```
-/

def squared_residuals (x xhat : List ℚ) : List ℚ :=
  (x.zip xhat).map (fun p => (p.1 - p.2) ^ 2)

/-- SPE of one observation: sum over features of the squared residual. -/
def spe_row (x xhat : List ℚ) : ℚ := (squared_residuals x xhat).sum

/-- RE² of one observation: maximum over features of the squared residual
(`none` on zero features, where `torch.max` raises). -/
def re2_row (x xhat : List ℚ) : Option ℚ :=
  match squared_residuals x xhat with
  | [] => none
  | a :: as => some (as.foldl max a)

/-- The part of `AEAnalyzer`'s state that `calculate_statistics` reads: the
trained flag and the reconstruction function computed by the model. -/
structure AEState where
  is_trained : Bool
  model : List ℚ → List ℚ

/-- `AEAnalyzer.calculate_statistics`: raises (`Except.error`) when the model
is untrained, otherwise reconstructs every observation and returns the RE² and
SPE arrays.  The first component of the result is the analyzer state after the
call. -/
def calculate_statistics (st : AEState) (X : List (List ℚ)) :
    AEState × Except String (List (Option ℚ) × List ℚ) :=
  if st.is_trained = false then (st, Except.error "模型尚未训练")
  else
    let recon := X.map st.model
    let pairs := X.zip recon
    (st, Except.ok (pairs.map (fun p => re2_row p.1 p.2),
                    pairs.map (fun p => spe_row p.1 p.2)))

theorem foldl_max_le_init_add_sum (l : List ℚ) :
    ∀ a : ℚ, 0 ≤ a → (∀ b ∈ l, 0 ≤ b) → l.foldl max a ≤ a + l.sum := by
  induction l with
  | nil => intro a _ _; simp
  | cons b bs ih =>
    intro a ha hl
    have hb : 0 ≤ b := hl b (by simp)
    have hbs : ∀ c ∈ bs, 0 ≤ c := fun c hc => hl c (by simp [hc])
    have h2 : bs.foldl max (max a b) ≤ max a b + bs.sum :=
      ih (max a b) (le_trans ha (le_max_left a b)) hbs
    have h3 : max a b ≤ a + b := max_le (by linarith) (by linarith)
    calc (b :: bs).foldl max a = bs.foldl max (max a b) := by simp [List.foldl]
    _ ≤ max a b + bs.sum := h2
    _ ≤ (a + b) + bs.sum := by linarith
    _ = a + (b :: bs).sum := by simp; ring

theorem squared_residuals_nonneg (x xhat : List ℚ) :
    ∀ v ∈ squared_residuals x xhat, 0 ≤ v := by
  intro v hv
  simp only [squared_residuals, List.mem_map] at hv
  rcases hv with ⟨p, _, rfl⟩
  positivity

/-- Per-observation form of C9. -/
theorem re2_row_nonneg_le_spe_row (x xhat : List ℚ) (hne : x ≠ [])
    (hlen : xhat.length = x.length) :
    ∃ r, re2_row x xhat = some r ∧ 0 ≤ r ∧ r ≤ spe_row x xhat := by
  cases x with
  | nil => exact absurd rfl hne
  | cons a as =>
    cases xhat with
    | nil => simp at hlen
    | cons b bs =>
      have hsq : squared_residuals (a :: as) (b :: bs)
          = (a - b) ^ 2 :: squared_residuals as bs := rfl
      refine ⟨(squared_residuals as bs).foldl max ((a - b) ^ 2), ?_, ?_, ?_⟩
      · simp [re2_row, hsq]
      · exact le_trans (by positivity) (init_le_foldl_max _ _)
      · have := foldl_max_le_init_add_sum (squared_residuals as bs)
          ((a - b) ^ 2) (by positivity) (squared_residuals_nonneg as bs)
        simpa [spe_row, hsq] using this

theorem zip_self_map {α β : Type} (l : List α) (m : α → β) :
    l.zip (l.map m) = l.map (fun x => (x, m x)) := by
  induction l with
  | nil => rfl
  | cons a as ih => simp [ih]

/-- C9: for every trained model and every observation with at least one
feature, the RE² statistic computed by `calculate_statistics` is nonnegative
and bounded by the SPE statistic of the same observation. -/
theorem C9_re2_le_spe (st : AEState) (X : List (List ℚ))
    (ht : st.is_trained = true)
    (hne : ∀ x ∈ X, x ≠ [])
    (hlen : ∀ x ∈ X, (st.model x).length = x.length) :
    ∃ re2s spes, (calculate_statistics st X).2 = Except.ok (re2s, spes) ∧
      re2s.length = X.length ∧ spes.length = X.length ∧
      ∀ (i : ℕ) (x : List ℚ), X[i]? = some x →
        ∃ r s, re2s[i]? = some (some r) ∧ spes[i]? = some s ∧
          0 ≤ r ∧ r ≤ s := by
  have hni : ¬ (st.is_trained = false) := by simp [ht]
  refine ⟨(X.zip (X.map st.model)).map (fun p => re2_row p.1 p.2),
    (X.zip (X.map st.model)).map (fun p => spe_row p.1 p.2), ?_, ?_, ?_, ?_⟩
  · simp only [calculate_statistics, if_neg hni]
  · simp
  · simp
  · intro i x hx
    have hmem : x ∈ X := List.getElem?_mem hx
    rcases re2_row_nonneg_le_spe_row x (st.model x) (hne x hmem)
      (hlen x hmem) with ⟨r, hr, hr0, hrs⟩
    refine ⟨r, spe_row x (st.model x), ?_, ?_, hr0, hrs⟩
    · rw [zip_self_map, List.map_map, List.getElem?_map, hx]
      simp [Function.comp, hr]
    · rw [zip_self_map, List.map_map, List.getElem?_map, hx]
      simp [Function.comp]

/-- Witness for C9 at a concrete trained state and dataset. -/
theorem C9_re2_le_spe_witness :
    ∃ re2s spes,
      (calculate_statistics ⟨true, fun x => x.map (fun _ => 0)⟩
        [[1, 2]]).2 = Except.ok (re2s, spes) ∧
      re2s.length = ([[1, 2]] : List (List ℚ)).length ∧
      spes.length = ([[1, 2]] : List (List ℚ)).length ∧
      ∀ (i : ℕ) (x : List ℚ), ([[1, 2]] : List (List ℚ))[i]? = some x →
        ∃ r s, re2s[i]? = some (some r) ∧ spes[i]? = some s ∧
          0 ≤ r ∧ r ≤ s :=
  C9_re2_le_spe ⟨true, fun x => x.map (fun _ => 0)⟩ [[1, 2]] rfl
    (by intro x hx; simp at hx; simp [hx]) (by intro x hx; simp)

/-- C10: when the model is untrained, `calculate_statistics` fails with the
"model not yet trained" error and the analyzer state is unchanged; when
training has succeeded the error branch is unreachable (the call returns
`Except.ok`). -/
theorem C10_untrained_guard (st : AEState) (X : List (List ℚ)) :
    (calculate_statistics st X).1 = st ∧
    (st.is_trained = false →
      (calculate_statistics st X).2 = Except.error "模型尚未训练") ∧
    (st.is_trained = true →
      ∃ out, (calculate_statistics st X).2 = Except.ok out) := by
  rcases st with ⟨b, m⟩
  cases b
  · refine ⟨?_, ?_, ?_⟩
    · simp [calculate_statistics]
    · intro _
      simp [calculate_statistics]
    · intro h
      simp at h
  · refine ⟨?_, ?_, ?_⟩
    · simp [calculate_statistics]
    · intro h
      simp at h
    · intro _
      refine ⟨((X.zip (X.map m)).map (fun p => re2_row p.1 p.2),
        (X.zip (X.map m)).map (fun p => spe_row p.1 p.2)), ?_⟩
      simp [calculate_statistics]

/-- Witness for C10 at a concrete untrained state. -/
theorem C10_untrained_guard_witness :
    (calculate_statistics ⟨false, fun x => x⟩ [[1]]).1 = (⟨false, fun x => x⟩ : AEState) ∧
    ((⟨false, fun x => x⟩ : AEState).is_trained = false →
      (calculate_statistics ⟨false, fun x => x⟩ [[1]]).2 = Except.error "模型尚未训练") ∧
    ((⟨false, fun x => x⟩ : AEState).is_trained = true →
      ∃ out, (calculate_statistics ⟨false, fun x => x⟩ [[1]]).2 = Except.ok out) :=
  C10_untrained_guard ⟨false, fun x => x⟩ [[1]]

/-! ## Empirical percentile (`np.percentile`, default linear interpolation),
used by `AEAnalyzer.calculate_control_limits` (src/ae.py lines 189-193), and
`pandas.DataFrame.quantile` used by `PCAAnalyzer._preprocess_data`
(src/Pca.py lines 76-77). -/

/-- Ascending sort of the sample (`np.percentile` and `pandas.quantile` both
sort the values before interpolating). -/
def np_sort (s : List ℚ) : List ℚ := s.insertionSort (· ≤ ·)

/-- Linear interpolation of a sorted array `a` at the fractional position `p`:
`a[⌊p⌋] + (p − ⌊p⌋) · (a[⌊p⌋+1] − a[⌊p⌋])`, the upper index falling back to
the lower value when it is out of range. -/
def interp_at (a : List ℚ) (p : ℚ) : ℚ :=
  let i := (⌊p⌋).toNat
  let lo := a.getD i 0
  let hi := a.getD (i + 1) lo
  lo + (p - (⌊p⌋ : ℚ)) * (hi - lo)

/-- `np.percentile(s, q)`: interpolation at virtual index `q/100 · (n−1)`. -/
def np_percentile (s : List ℚ) (q : ℚ) : ℚ :=
  interp_at (np_sort s) (q / 100 * ((s.length : ℚ) - 1))

/-- `AEAnalyzer.calculate_control_limits`:
`np.percentile(statistics, confidence_level * 100)`. -/
def calculate_control_limits (statistics : List ℚ) (confidence_level : ℚ) : ℚ :=
  np_percentile statistics (confidence_level * 100)

/-- `pandas.Series.quantile(q)` (linear interpolation at `q · (n−1)`). -/
def pandas_quantile (s : List ℚ) (q : ℚ) : ℚ :=
  interp_at (np_sort s) (q * ((s.length : ℚ) - 1))

theorem length_np_sort (s : List ℚ) : (np_sort s).length = s.length :=
  List.length_insertionSort _ _

theorem sorted_np_sort (s : List ℚ) : List.Sorted (· ≤ ·) (np_sort s) :=
  List.sorted_insertionSort _ _

theorem getD_default_irrel (a : List ℚ) (k : ℕ) (d : ℚ) (h : k < a.length) :
    a.getD k d = a.getD k 0 := by
  rw [List.getD_eq_getElem?_getD, List.getD_eq_getElem?_getD,
    List.getElem?_eq_getElem h]
  rfl

theorem sorted_getD_mono (a : List ℚ) (ha : List.Sorted (· ≤ ·) a)
    (i j : ℕ) (hij : i ≤ j) (hj : j < a.length) :
    a.getD i 0 ≤ a.getD j 0 := by
  have hi : i < a.length := lt_of_le_of_lt hij hj
  rw [List.getD_eq_getElem?_getD, List.getD_eq_getElem?_getD,
    List.getElem?_eq_getElem hi, List.getElem?_eq_getElem hj]
  simp only [Option.getD_some]
  have h := List.Sorted.rel_get_of_le ha (a := ⟨i, hi⟩) (b := ⟨j, hj⟩)
    (Fin.mk_le_mk.2 hij)
  simpa [List.get_eq_getElem] using h

theorem sorted_getD_succ (a : List ℚ) (ha : List.Sorted (· ≤ ·) a) (i : ℕ) :
    a.getD i 0 ≤ a.getD (i + 1) (a.getD i 0) := by
  by_cases h : i + 1 < a.length
  · rw [getD_default_irrel a (i + 1) _ h]
    exact sorted_getD_mono a ha i (i + 1) (Nat.le_succ i) h
  · rw [List.getD_eq_getElem?_getD (n := i + 1),
      List.getElem?_eq_none (by omega)]
    simp

theorem interp_at_mono (a : List ℚ) (ha : List.Sorted (· ≤ ·) a)
    (hne : a ≠ []) (p q : ℚ) (hp0 : 0 ≤ p) (hpq : p ≤ q)
    (hq : q ≤ (a.length : ℚ) - 1) :
    interp_at a p ≤ interp_at a q := by
  have hq0 : 0 ≤ q := le_trans hp0 hpq
  have hfpz : (0 : ℤ) ≤ ⌊p⌋ := Int.floor_nonneg.2 hp0
  have hfqz : (0 : ℤ) ≤ ⌊q⌋ := Int.floor_nonneg.2 hq0
  simp only [interp_at]
  set i := (⌊p⌋).toNat with hidef
  set j := (⌊q⌋).toNat with hjdef
  have hic : ((i : ℤ) : ℚ) = ((⌊p⌋ : ℤ) : ℚ) := by
    rw [hidef, Int.toNat_of_nonneg hfpz]
  have hjc : ((j : ℤ) : ℚ) = ((⌊q⌋ : ℤ) : ℚ) := by
    rw [hjdef, Int.toNat_of_nonneg hfqz]
  have hij : i ≤ j := by
    have h := Int.floor_le_floor hpq
    rw [hidef, hjdef]
    omega
  have hlen : 0 < a.length := List.length_pos.2 hne
  have hjlt : j < a.length := by
    have h1 : (j : ℚ) ≤ q := by
      have h2 := Int.floor_le q
      rw [← hjc] at h2
      exact_mod_cast h2
    have h3 : (j : ℚ) < (a.length : ℚ) := by
      have : (j : ℚ) ≤ (a.length : ℚ) - 1 := le_trans h1 hq
      linarith
    exact_mod_cast h3
  have hilt : i < a.length := lt_of_le_of_lt hij hjlt
  have hfp0 : 0 ≤ p - ((⌊p⌋ : ℤ) : ℚ) := by
    have := Int.floor_le p
    linarith
  have hfp1 : p - ((⌊p⌋ : ℤ) : ℚ) ≤ 1 := by
    have := Int.lt_floor_add_one p
    linarith
  have hfq0 : 0 ≤ q - ((⌊q⌋ : ℤ) : ℚ) := by
    have := Int.floor_le q
    linarith
  rcases lt_or_eq_of_le hij with hlt | heq
  · -- different cells: pass through the cell boundary
    have hi1le : i + 1 ≤ j := hlt
    have hi1lt : i + 1 < a.length := lt_of_le_of_lt hi1le hjlt
    have hlo_hi : a.getD i 0 ≤ a.getD (i + 1) (a.getD i 0) := sorted_getD_succ a ha i
    have hhi_eq : a.getD (i + 1) (a.getD i 0) = a.getD (i + 1) 0 :=
      getD_default_irrel a (i + 1) _ hi1lt
    have hstep2 : a.getD (i + 1) 0 ≤ a.getD j 0 :=
      sorted_getD_mono a ha (i + 1) j hi1le hjlt
    have hlo_hi_q : a.getD j 0 ≤ a.getD (j + 1) (a.getD j 0) := sorted_getD_succ a ha j
    have hstep1 : a.getD i 0 + (p - ((⌊p⌋ : ℤ) : ℚ)) *
        (a.getD (i + 1) (a.getD i 0) - a.getD i 0) ≤ a.getD (i + 1) (a.getD i 0) := by
      nlinarith [hlo_hi, hfp0, hfp1]
    have hstep3 : a.getD j 0 ≤ a.getD j 0 + (q - ((⌊q⌋ : ℤ) : ℚ)) *
        (a.getD (j + 1) (a.getD j 0) - a.getD j 0) := by
      nlinarith [hlo_hi_q, hfq0]
    calc a.getD i 0 + (p - ((⌊p⌋ : ℤ) : ℚ)) *
        (a.getD (i + 1) (a.getD i 0) - a.getD i 0)
        ≤ a.getD (i + 1) (a.getD i 0) := hstep1
    _ = a.getD (i + 1) 0 := hhi_eq
    _ ≤ a.getD j 0 := hstep2
    _ ≤ a.getD j 0 + (q - ((⌊q⌋ : ℤ) : ℚ)) *
        (a.getD (j + 1) (a.getD j 0) - a.getD j 0) := hstep3
  · -- same cell: interpolate within one segment
    rw [← heq]
    have hfloor_eq : ((⌊p⌋ : ℤ) : ℚ) = ((⌊q⌋ : ℤ) : ℚ) := by
      rw [← hic, ← hjc, heq]
    have hff : p - ((⌊p⌋ : ℤ) : ℚ) ≤ q - ((⌊q⌋ : ℤ) : ℚ) := by
      rw [← hfloor_eq]
      linarith
    have hlo_hi : a.getD i 0 ≤ a.getD (i + 1) (a.getD i 0) := sorted_getD_succ a ha i
    nlinarith [hff, hlo_hi, hfp0]

theorem np_percentile_mono (s : List ℚ) (hs : s ≠ []) (q1 q2 : ℚ)
    (h0 : 0 ≤ q1) (h12 : q1 ≤ q2) (h100 : q2 ≤ 100) :
    np_percentile s q1 ≤ np_percentile s q2 := by
  have hlen : 0 < s.length := List.length_pos.2 hs
  have hlen1 : (0 : ℚ) ≤ (s.length : ℚ) - 1 := by
    have h1 : (1 : ℚ) ≤ (s.length : ℚ) := by exact_mod_cast hlen
    linarith
  have hsorted := sorted_np_sort s
  have hne : np_sort s ≠ [] := by
    apply List.length_pos.1
    rw [length_np_sort]
    exact hlen
  apply interp_at_mono (np_sort s) hsorted hne
  · exact mul_nonneg (div_nonneg h0 (by norm_num)) hlen1
  · apply mul_le_mul_of_nonneg_right _ hlen1
    apply div_le_div_of_nonneg_right h12
    norm_num
  · rw [length_np_sort]
    have hq : q2 / 100 ≤ 1 := by linarith
    calc q2 / 100 * ((s.length : ℚ) - 1) ≤ 1 * ((s.length : ℚ) - 1) :=
      mul_le_mul_of_nonneg_right hq hlen1
    _ = (s.length : ℚ) - 1 := one_mul _

/-! ## PCA-path outlier preprocessing (`PCAAnalyzer._preprocess_data`,
src/Pca.py lines 73-89)

```python
Q1 = data.quantile(0.25)
Q3 = data.quantile(0.75)
IQR = Q3 - Q1
lower_bound = Q1 - 1.5 * IQR
upper_bound = Q3 + 1.5 * IQR
outlier_mask = (data < lower_bound) | (data > upper_bound)
data_cleaned = data.copy()
data_cleaned[outlier_mask] = np.nan
data_cleaned = data_cleaned.fillna(data.mean())
```
All the pandas operations are columnwise; the embedding works on one feature
column at a time and on the dataset as a list of feature columns. -/

/-- `data.mean()` for one feature column. -/
def column_mean (col : List ℚ) : ℚ := col.sum / (col.length : ℚ)

/-- `Q1 - 1.5*IQR` for one feature column. -/
def iqr_lower (col : List ℚ) : ℚ :=
  pandas_quantile col (1 / 4) -
    3 / 2 * (pandas_quantile col (3 / 4) - pandas_quantile col (1 / 4))

/-- `Q3 + 1.5*IQR` for one feature column. -/
def iqr_upper (col : List ℚ) : ℚ :=
  pandas_quantile col (3 / 4) +
    3 / 2 * (pandas_quantile col (3 / 4) - pandas_quantile col (1 / 4))

/-- The outlier-handling step of `_preprocess_data` on one feature column:
values strictly outside the IQR bounds become `NaN` and are then filled with
the mean of the original (pre-replacement) column. -/
def remove_outliers_column (col : List ℚ) : List ℚ :=
  col.map (fun v =>
    if v < iqr_lower col ∨ iqr_upper col < v then column_mean col else v)

/-- The outlier-handling step on the whole dataset (one entry per feature
column). -/
def preprocess_remove_outliers (columns : List (List ℚ)) : List (List ℚ) :=
  columns.map remove_outliers_column

/-- C6: with outlier removal enabled, preprocessing replaces per feature
exactly the values strictly outside `[Q1 − 1.5·IQR, Q3 + 1.5·IQR]` with the
feature mean computed before any replacement, leaves every in-bounds value
unchanged, and preserves the shape (row and column count) of the dataset. -/
theorem C6_outlier_replacement (columns : List (List ℚ)) :
    (preprocess_remove_outliers columns).length = columns.length ∧
    ∀ col ∈ columns,
      (remove_outliers_column col).length = col.length ∧
      ∀ (i : ℕ) (v : ℚ), col[i]? = some v →
        ((v < iqr_lower col ∨ iqr_upper col < v) →
          (remove_outliers_column col)[i]? = some (column_mean col)) ∧
        (iqr_lower col ≤ v → v ≤ iqr_upper col →
          (remove_outliers_column col)[i]? = some v) := by
  constructor
  · simp [preprocess_remove_outliers]
  · intro col _
    constructor
    · simp [remove_outliers_column]
    · intro i v hv
      constructor
      · intro hout
        simp only [remove_outliers_column, List.getElem?_map, hv, Option.map_some']
        rw [if_pos hout]
      · intro h1 h2
        have hnot : ¬ (v < iqr_lower col ∨ iqr_upper col < v) := by
          push_neg
          exact ⟨h1, h2⟩
        simp only [remove_outliers_column, List.getElem?_map, hv, Option.map_some']
        rw [if_neg hnot]

/-- Witness for C6 at a concrete one-column dataset. -/
theorem C6_outlier_replacement_witness :
    (preprocess_remove_outliers [[1, 2, 100]]).length =
      ([[1, 2, 100]] : List (List ℚ)).length ∧
    ∀ col ∈ ([[1, 2, 100]] : List (List ℚ)),
      (remove_outliers_column col).length = col.length ∧
      ∀ (i : ℕ) (v : ℚ), col[i]? = some v →
        ((v < iqr_lower col ∨ iqr_upper col < v) →
          (remove_outliers_column col)[i]? = some (column_mean col)) ∧
        (iqr_lower col ≤ v → v ≤ iqr_upper col →
          (remove_outliers_column col)[i]? = some v) :=
  C6_outlier_replacement [[1, 2, 100]]

/-! ## KDE-CDF control limit (`PCAAnalyzer._calculate_control_limit`,
src/Pca.py lines 132-136)

```python
kde = gaussian_kde(np.ravel(statistic))
x = np.linspace(min(statistic), max(statistic), 1000)
cdf = np.cumsum(kde(x)) / np.sum(kde(x))
return x[np.where(cdf >= confidence_level)[0][0]]
```
The fitted Gaussian kernel density estimate is embedded as an abstract
density function `kde : ℚ → ℚ`; a Gaussian mixture is strictly positive
everywhere, which is the only property of it the proofs use.  `np.where` on
an all-false mask makes the final indexing raise `IndexError`; the embedding
returns `none` there. -/

/-- `np.linspace(lo, hi, num)`. -/
def linspace (lo hi : ℚ) (num : ℕ) : List ℚ :=
  (List.range num).map
    (fun i : ℕ => lo + (hi - lo) * (i : ℚ) / ((num : ℚ) - 1))

def cumsum_from (acc : ℚ) : List ℚ → List ℚ
  | [] => []
  | v :: vs => (acc + v) :: cumsum_from (acc + v) vs

/-- `np.cumsum`. -/
def np_cumsum (l : List ℚ) : List ℚ := cumsum_from 0 l

/-- `np.where(mask)[0][0]`: index of the first `true` entry of the mask. -/
def np_where_first (p : ℚ → Bool) : List ℚ → Option ℕ
  | [] => none
  | v :: vs => if p v then some 0 else (np_where_first p vs).map (· + 1)

/-- The evaluation grid `x` of `_calculate_control_limit`. -/
def kde_grid (statistic : List ℚ) : List ℚ :=
  linspace (pymin statistic) (pymax statistic) 1000

/-- `kde(x)` on the grid. -/
def kde_vals (kde : ℚ → ℚ) (statistic : List ℚ) : List ℚ :=
  (kde_grid statistic).map kde

/-- The normalized cumulative array `cdf`. -/
def kde_cdf_list (kde : ℚ → ℚ) (statistic : List ℚ) : List ℚ :=
  (np_cumsum (kde_vals kde statistic)).map
    (fun v => v / (kde_vals kde statistic).sum)

/-- `PCAAnalyzer._calculate_control_limit`: the grid value at the first index
where the normalized cumulative density reaches the confidence level (`none`
when no index qualifies, where Python raises `IndexError`). -/
def calculate_control_limit (kde : ℚ → ℚ) (statistic : List ℚ)
    (confidence_level : ℚ) : Option ℚ :=
  (np_where_first (fun v => decide (confidence_level ≤ v))
      (kde_cdf_list kde statistic)).bind
    (fun i => (kde_grid statistic)[i]?)

/-- The `i`-th grid point as a function of the index (the grid has 1000
points, so the step is `(hi − lo)/999`). -/
def grid_point (lo hi : ℚ) (i : ℕ) : ℚ :=
  lo + (hi - lo) * (i : ℚ) / ((1000 : ℚ) - 1)

/-- The `i`-th entry of the normalized cumulative array as a function of the
index. -/
def kde_cdf (kde : ℚ → ℚ) (lo hi : ℚ) (i : ℕ) : ℚ :=
  ((List.range (i + 1)).map (fun j => kde (grid_point lo hi j))).sum /
    ((List.range 1000).map (fun j => kde (grid_point lo hi j))).sum

theorem length_linspace (lo hi : ℚ) (num : ℕ) :
    (linspace lo hi num).length = num := by
  rw [linspace, List.length_map, List.length_range]

theorem getElem?_kde_grid (s : List ℚ) (j : ℕ) (hj : j < 1000) :
    (kde_grid s)[j]? = some (grid_point (pymin s) (pymax s) j) := by
  rw [kde_grid, linspace, List.getElem?_map, List.getElem?_range hj,
    Option.map_some']
  rfl

theorem kde_vals_eq (kde : ℚ → ℚ) (s : List ℚ) :
    kde_vals kde s =
      (List.range 1000).map
        (fun j => kde (grid_point (pymin s) (pymax s) j)) := by
  rw [kde_vals, kde_grid, linspace, List.map_map]
  rfl

theorem getElem?_cumsum_from (l : List ℚ) :
    ∀ (acc : ℚ) (i : ℕ), i < l.length →
      (cumsum_from acc l)[i]? = some (acc + (l.take (i + 1)).sum) := by
  induction l with
  | nil =>
    intro acc i hi
    simp at hi
  | cons v vs ih =>
    intro acc i hi
    cases i with
    | zero => simp [cumsum_from]
    | succ n =>
      have hn : n < vs.length := by simpa using hi
      have h := ih (acc + v) n hn
      simp [cumsum_from, h, add_assoc]

theorem length_cumsum_from (l : List ℚ) :
    ∀ acc : ℚ, (cumsum_from acc l).length = l.length := by
  induction l with
  | nil => intro acc; rfl
  | cons v vs ih =>
    intro acc
    simp [cumsum_from, ih]

theorem take_kde_vals (kde : ℚ → ℚ) (s : List ℚ) (i : ℕ) (hi : i + 1 ≤ 1000) :
    (kde_vals kde s).take (i + 1) =
      (List.range (i + 1)).map
        (fun j => kde (grid_point (pymin s) (pymax s) j)) := by
  rw [kde_vals_eq, ← List.map_take, List.take_range, min_eq_left hi]

theorem length_kde_vals (kde : ℚ → ℚ) (s : List ℚ) :
    (kde_vals kde s).length = 1000 := by
  rw [kde_vals, List.length_map, kde_grid, length_linspace]

theorem kde_vals_sum_pos (kde : ℚ → ℚ) (s : List ℚ) (hk : ∀ t, 0 < kde t) :
    0 < (kde_vals kde s).sum := by
  apply List.sum_pos
  · intro x hx
    rcases List.mem_map.1 hx with ⟨t, _, rfl⟩
    exact hk t
  · intro h
    have hl := length_kde_vals kde s
    rw [h] at hl
    simp at hl

theorem getElem?_kde_cdf_list (kde : ℚ → ℚ) (s : List ℚ) (i : ℕ)
    (hi : i < 1000) :
    (kde_cdf_list kde s)[i]? = some (kde_cdf kde (pymin s) (pymax s) i) := by
  have hlen : i < (kde_vals kde s).length := by
    rw [length_kde_vals]
    exact hi
  rw [kde_cdf_list, List.getElem?_map, np_cumsum,
    getElem?_cumsum_from _ 0 i hlen, Option.map_some', zero_add,
    take_kde_vals kde s i (by omega), kde_cdf, kde_vals_eq]

theorem length_kde_cdf_list (kde : ℚ → ℚ) (s : List ℚ) :
    (kde_cdf_list kde s).length = 1000 := by
  rw [kde_cdf_list, List.length_map, np_cumsum, length_cumsum_from,
    length_kde_vals]

theorem kde_cdf_at_999 (kde : ℚ → ℚ) (s : List ℚ) (hk : ∀ t, 0 < kde t) :
    kde_cdf kde (pymin s) (pymax s) 999 = 1 := by
  have h1000 : (999 : ℕ) + 1 = 1000 := by norm_num
  rw [kde_cdf, h1000, div_self]
  have hpos : 0 < (kde_vals kde s).sum := kde_vals_sum_pos kde s hk
  rw [kde_vals_eq] at hpos
  exact ne_of_gt hpos

theorem grid_point_mono (lo hi : ℚ) (h : lo ≤ hi) (i j : ℕ) (hij : i ≤ j) :
    grid_point lo hi i ≤ grid_point lo hi j := by
  unfold grid_point
  have hc : (i : ℚ) ≤ (j : ℚ) := by exact_mod_cast hij
  have hnn : 0 ≤ hi - lo := sub_nonneg.2 h
  have hm : (hi - lo) * (i : ℚ) ≤ (hi - lo) * (j : ℚ) :=
    mul_le_mul_of_nonneg_left hc hnn
  have hd : (hi - lo) * (i : ℚ) / ((1000 : ℚ) - 1) ≤
      (hi - lo) * (j : ℚ) / ((1000 : ℚ) - 1) :=
    div_le_div_of_nonneg_right hm (by norm_num)
  linarith

theorem np_where_first_some (p : ℚ → Bool) :
    ∀ (l : List ℚ) (i : ℕ), np_where_first p l = some i →
      ∃ v, l[i]? = some v ∧ p v = true ∧
        ∀ j, j < i → ∀ w, l[j]? = some w → p w = false := by
  intro l
  induction l with
  | nil =>
    intro i h
    simp [np_where_first] at h
  | cons v vs ih =>
    intro i h
    by_cases hp : p v = true
    · rw [np_where_first, if_pos hp] at h
      obtain rfl : 0 = i := Option.some.inj h
      exact ⟨v, by simp, hp, fun j hj => absurd hj (Nat.not_lt_zero j)⟩
    · rw [np_where_first, if_neg hp] at h
      rcases Option.map_eq_some'.1 h with ⟨i0, h0, rfl⟩
      rcases ih i0 h0 with ⟨w, hw, hpw, hprev⟩
      refine ⟨w, by simpa using hw, hpw, ?_⟩
      intro j hj u hu
      cases j with
      | zero =>
        have hu0 : u = v := by simpa using hu.symm
        rw [hu0]
        simpa using hp
      | succ j0 =>
        exact hprev j0 (by omega) u (by simpa using hu)

theorem np_where_first_none (p : ℚ → Bool) :
    ∀ l : List ℚ, np_where_first p l = none → ∀ v ∈ l, p v = false := by
  intro l
  induction l with
  | nil =>
    intro _ v hv
    simp at hv
  | cons a as ih =>
    intro h v hv
    by_cases hp : p a = true
    · rw [np_where_first, if_pos hp] at h
      exact absurd h (by simp)
    · rw [np_where_first, if_neg hp] at h
      have h0 : np_where_first p as = none := by
        cases hq : np_where_first p as with
        | none => rfl
        | some k =>
          rw [hq] at h
          simp at h
      rcases List.mem_cons.1 hv with rfl | hmem
      · simpa using hp
      · exact ih h0 v hmem

/-- Full characterization of `_calculate_control_limit` for a strictly
positive density and a confidence level at most `1`: the routine returns the
grid point at the first index whose normalized cumulative density reaches the
confidence level, and that grid point is minimal among all satisfying grid
points. -/
theorem calculate_control_limit_spec (kde : ℚ → ℚ) (s : List ℚ) (c : ℚ)
    (hk : ∀ t, 0 < kde t) (hc : c ≤ 1) (hs : s ≠ []) :
    ∃ i, i < 1000 ∧
      np_where_first (fun v => decide (c ≤ v)) (kde_cdf_list kde s) = some i ∧
      calculate_control_limit kde s c =
        some (grid_point (pymin s) (pymax s) i) ∧
      c ≤ kde_cdf kde (pymin s) (pymax s) i ∧
      (∀ j, j < i → kde_cdf kde (pymin s) (pymax s) j < c) ∧
      (∀ j, j < 1000 → c ≤ kde_cdf kde (pymin s) (pymax s) j →
        grid_point (pymin s) (pymax s) i ≤ grid_point (pymin s) (pymax s) j) := by
  have h999 : (kde_cdf_list kde s)[999]? =
      some (kde_cdf kde (pymin s) (pymax s) 999) :=
    getElem?_kde_cdf_list kde s 999 (by norm_num)
  have hlast : decide (c ≤ kde_cdf kde (pymin s) (pymax s) 999) = true := by
    simp only [decide_eq_true_eq]
    rw [kde_cdf_at_999 kde s hk]
    exact hc
  cases hw : np_where_first (fun v => decide (c ≤ v)) (kde_cdf_list kde s) with
  | none =>
    exfalso
    have hmem : kde_cdf kde (pymin s) (pymax s) 999 ∈ kde_cdf_list kde s :=
      List.getElem?_mem h999
    have hfalse := np_where_first_none (fun v => decide (c ≤ v))
      (kde_cdf_list kde s) hw _ hmem
    simp only [decide_eq_false_iff_not, not_le] at hfalse
    have hge : c ≤ kde_cdf kde (pymin s) (pymax s) 999 := by
      rw [kde_cdf_at_999 kde s hk]
      exact hc
    exact absurd hge (not_le.2 hfalse)
  | some i =>
    rcases np_where_first_some (fun v => decide (c ≤ v))
      (kde_cdf_list kde s) i hw with ⟨v, hv, hpv, hprev⟩
    have hi : i < 1000 := by
      have hlt : i < (kde_cdf_list kde s).length := by
        rcases List.getElem?_eq_some.1 hv with ⟨h, _⟩
        exact h
      rwa [length_kde_cdf_list] at hlt
    have hveq : v = kde_cdf kde (pymin s) (pymax s) i := by
      have h2 := getElem?_kde_cdf_list kde s i hi
      rw [hv] at h2
      exact Option.some.inj h2
    have hprevq : ∀ j, j < i → kde_cdf kde (pymin s) (pymax s) j < c := by
      intro j hj
      have hji : j < 1000 := lt_trans hj hi
      have hjv := getElem?_kde_cdf_list kde s j hji
      have hf := hprev j hj _ hjv
      simp only [decide_eq_false_iff_not, not_le] at hf
      exact hf
    refine ⟨i, hi, rfl, ?_, ?_, hprevq, ?_⟩
    · rw [calculate_control_limit, hw]
      exact getElem?_kde_grid s i hi
    · rw [hveq] at hpv
      simpa using hpv
    · intro j hj hcj
      rcases le_or_lt i j with hij | hji
      · exact grid_point_mono (pymin s) (pymax s) (pymin_le_pymax s hs) i j hij
      · exact absurd hcj (not_le.2 (hprevq j hji))

/-- C3: on a statistic array where the KDE estimator succeeds (at least two
observations, not all equal), with an everywhere-positive fitted density and
a confidence level at most `1`, the PCA control limit is the smallest of the
1000 evenly spaced grid points spanning `[min s, max s]` whose normalized
cumulative kernel-density value reaches the confidence level. -/
theorem C3_kde_control_limit_smallest_grid_point (kde : ℚ → ℚ) (s : List ℚ)
    (c : ℚ) (hk : ∀ t, 0 < kde t) (hc : c ≤ 1) (hlen2 : 2 ≤ s.length)
    (_hdist : ∃ a ∈ s, ∃ b ∈ s, a ≠ b) :
    ∃ i, i < 1000 ∧
      calculate_control_limit kde s c =
        some (grid_point (pymin s) (pymax s) i) ∧
      c ≤ kde_cdf kde (pymin s) (pymax s) i ∧
      ∀ j, j < 1000 → c ≤ kde_cdf kde (pymin s) (pymax s) j →
        grid_point (pymin s) (pymax s) i ≤ grid_point (pymin s) (pymax s) j := by
  have hs : s ≠ [] := by
    intro h
    rw [h] at hlen2
    simp at hlen2
  rcases calculate_control_limit_spec kde s c hk hc hs with
    ⟨i, h1, _, h3, h4, _, h6⟩
  exact ⟨i, h1, h3, h4, h6⟩

/-- Witness for C3 at a concrete density and statistic array. -/
theorem C3_kde_control_limit_smallest_grid_point_witness :
    ∃ i, i < 1000 ∧
      calculate_control_limit (fun _ => 1) [0, 1] (99 / 100) =
        some (grid_point (pymin [0, 1]) (pymax [0, 1]) i) ∧
      (99 / 100 : ℚ) ≤ kde_cdf (fun _ => 1) (pymin [0, 1]) (pymax [0, 1]) i ∧
      ∀ j, j < 1000 →
        (99 / 100 : ℚ) ≤ kde_cdf (fun _ => 1) (pymin [0, 1]) (pymax [0, 1]) j →
        grid_point (pymin [0, 1]) (pymax [0, 1]) i ≤
          grid_point (pymin [0, 1]) (pymax [0, 1]) j :=
  C3_kde_control_limit_smallest_grid_point (fun _ => 1) [0, 1] (99 / 100)
    (fun _ => one_pos) (by norm_num) (by simp)
    ⟨0, by simp, 1, by simp, by norm_num⟩

/-- C4: for a fixed statistic array and confidence levels `c1 ≤ c2` in range,
the KDE-CDF control limit of the PCA path and the empirical-percentile
control limit of the autoencoder path are both monotone nondecreasing in the
confidence level. -/
theorem C4_control_limit_monotone (kde : ℚ → ℚ) (s t : List ℚ) (c1 c2 : ℚ)
    (hk : ∀ u, 0 < kde u) (hs : s ≠ []) (ht : t ≠ [])
    (h0 : 0 ≤ c1) (h12 : c1 ≤ c2) (h21 : c2 ≤ 1) :
    (∀ L1 L2, calculate_control_limit kde s c1 = some L1 →
      calculate_control_limit kde s c2 = some L2 → L1 ≤ L2) ∧
    calculate_control_limits t c1 ≤ calculate_control_limits t c2 := by
  constructor
  · intro L1 L2 hL1 hL2
    rcases calculate_control_limit_spec kde s c1 hk (le_trans h12 h21) hs with
      ⟨i1, hi1, _, hres1, _, _, hmin1⟩
    rcases calculate_control_limit_spec kde s c2 hk h21 hs with
      ⟨i2, hi2, _, hres2, hcdf2, _, _⟩
    rw [hres1] at hL1
    rw [hres2] at hL2
    have hL1e := Option.some.inj hL1
    have hL2e := Option.some.inj hL2
    rw [← hL1e, ← hL2e]
    exact hmin1 i2 hi2 (le_trans h12 hcdf2)
  · unfold calculate_control_limits
    apply np_percentile_mono t ht
    · exact mul_nonneg h0 (by norm_num)
    · exact mul_le_mul_of_nonneg_right h12 (by norm_num)
    · nlinarith

/-- Witness for C4 at a concrete density, statistic arrays and confidence
levels. -/
theorem C4_control_limit_monotone_witness :
    (∀ L1 L2, calculate_control_limit (fun _ => 1) [0, 1] (1 / 2) = some L1 →
      calculate_control_limit (fun _ => 1) [0, 1] (99 / 100) = some L2 →
      L1 ≤ L2) ∧
    calculate_control_limits [0, 1] (1 / 2) ≤
      calculate_control_limits [0, 1] (99 / 100) :=
  C4_control_limit_monotone (fun _ => 1) [0, 1] [0, 1] (1 / 2) (99 / 100)
    (fun _ => one_pos) (by simp) (by simp) (by norm_num) (by norm_num)
    (by norm_num)

/-! ## Data loading (`AEAnalyzer.load_data`, src/ae.py lines 63-86)

```python
numeric_columns = data.select_dtypes(include=[np.number]).columns
data = data[numeric_columns]
data = data.dropna()
if data.empty:
    raise ValueError("数据为空或没有数值列")
```
The raised error is caught by `load_data` itself, which then returns `None`.
The input table is embedded as a per-column numeric-dtype mask `flags`
together with the list of rows, a cell being `none` when the value is
missing; a pandas frame is `empty` iff it has no columns or no rows. -/

/-- Restrict one row to the numeric columns. -/
def select_numeric (flags : List Bool) (row : List (Option ℚ)) :
    List (Option ℚ) :=
  ((flags.zip row).filter (fun p => p.1)).map Prod.snd

/-- `dropna` for one row: keep it (with the `Option` wrappers stripped) iff
no retained cell is missing. -/
def dropna_row : List (Option ℚ) → Option (List ℚ)
  | [] => some []
  | none :: _ => none
  | some v :: rest => (dropna_row rest).map (fun r => v :: r)

/-- `AEAnalyzer.load_data`: select the numeric columns, drop rows with
missing values, and fail (`None`) iff the surviving frame is empty. -/
def load_data (flags : List Bool) (rows : List (List (Option ℚ))) :
    Option (List (List ℚ)) :=
  let cleaned := rows.filterMap (fun r => dropna_row (select_numeric flags r))
  if flags.count true = 0 ∨ cleaned = [] then none else some cleaned

theorem select_numeric_cons (f : Bool) (fs : List Bool) (c : Option ℚ)
    (cs : List (Option ℚ)) :
    select_numeric (f :: fs) (c :: cs) =
      if f then c :: select_numeric fs cs else select_numeric fs cs := by
  cases f <;> simp [select_numeric]

theorem length_select_numeric :
    ∀ (flags : List Bool) (row : List (Option ℚ)),
      row.length = flags.length →
      (select_numeric flags row).length = flags.count true := by
  intro flags
  induction flags with
  | nil =>
    intro row h
    have : row = [] := List.length_eq_zero.1 h
    subst this
    simp [select_numeric]
  | cons f fs ih =>
    intro row h
    cases row with
    | nil => simp at h
    | cons c cs =>
      have hlen : cs.length = fs.length := by simpa using h
      rw [select_numeric_cons]
      cases f
      · rw [if_neg (by simp)]
        rw [ih cs hlen]
        simp [List.count_cons]
      · rw [if_pos rfl]
        simp only [List.length_cons, ih cs hlen]
        simp [List.count_cons]

theorem length_dropna_row :
    ∀ (l : List (Option ℚ)) (out : List ℚ),
      dropna_row l = some out → out.length = l.length := by
  intro l
  induction l with
  | nil =>
    intro out h
    simp only [dropna_row, Option.some.injEq] at h
    simp [← h]
  | cons c cs ih =>
    intro out h
    cases c with
    | none => simp [dropna_row] at h
    | some v =>
      simp only [dropna_row] at h
      rcases Option.map_eq_some'.1 h with ⟨o, ho, rfl⟩
      simp [ih o ho]

/-- C5: for every input table, `load_data` either returns a dataset that
keeps exactly the numeric columns, has no missing values (every surviving
row comes from `dropna` of the numeric restriction of an input row) and has
at least one row and at least one numeric column, or it fails (`none`)
precisely because no numeric column remains or every row was dropped. -/
theorem C5_load_data_spec (flags : List Bool) (rows : List (List (Option ℚ)))
    (hlen : ∀ r ∈ rows, r.length = flags.length) :
    (load_data flags rows = none ∧
      (flags.count true = 0 ∨
        ∀ r ∈ rows, dropna_row (select_numeric flags r) = none)) ∨
    (∃ d, load_data flags rows = some d ∧ d ≠ [] ∧ 0 < flags.count true ∧
      (∀ row ∈ d, row.length = flags.count true) ∧
      (∀ row ∈ d, ∃ r ∈ rows,
        dropna_row (select_numeric flags r) = some row)) := by
  by_cases hcond : flags.count true = 0 ∨
      rows.filterMap (fun r => dropna_row (select_numeric flags r)) = []
  · left
    constructor
    · simp only [load_data]
      rw [if_pos hcond]
    · rcases hcond with h | h
      · exact Or.inl h
      · exact Or.inr (fun r hr => List.filterMap_eq_nil.1 h r hr)
  · right
    push_neg at hcond
    rcases hcond with ⟨h1, h2⟩
    refine ⟨rows.filterMap (fun r => dropna_row (select_numeric flags r)),
      ?_, h2, Nat.pos_of_ne_zero h1, ?_, ?_⟩
    · simp only [load_data]
      rw [if_neg]
      push_neg
      exact ⟨h1, h2⟩
    · intro row hrow
      rcases List.mem_filterMap.1 hrow with ⟨r, hr, hdr⟩
      have hdl := length_dropna_row _ _ hdr
      rw [hdl, length_select_numeric flags r (hlen r hr)]
    · intro row hrow
      rcases List.mem_filterMap.1 hrow with ⟨r, hr, hdr⟩
      exact ⟨r, hr, hdr⟩

/-- Witness for C5 at a concrete one-column, one-row table. -/
theorem C5_load_data_spec_witness :
    (load_data [true] [[some 1]] = none ∧
      (([true] : List Bool).count true = 0 ∨
        ∀ r ∈ ([[some 1]] : List (List (Option ℚ))),
          dropna_row (select_numeric [true] r) = none)) ∨
    (∃ d, load_data [true] [[some 1]] = some d ∧ d ≠ [] ∧
      0 < ([true] : List Bool).count true ∧
      (∀ row ∈ d, row.length = ([true] : List Bool).count true) ∧
      (∀ row ∈ d, ∃ r ∈ ([[some 1]] : List (List (Option ℚ))),
        dropna_row (select_numeric [true] r) = some row)) :=
  C5_load_data_spec [true] [[some 1]]
    (by intro r hr; simp at hr; simp [hr])

/-! ## Top-level pipeline control flow (`PCAAnalyzer.run_analysis`,
src/Pca.py lines 24-71, and `run_fault_detection`, src/ae.py lines 209-281)

`run_analysis` wraps the whole pipeline in `try/except`: on any stage failure
it reports a status message and returns `False`, and `self.results` is
assigned exactly once, only after the statistics and both control limits have
been computed, so the stored bundle is never partially updated.
`run_fault_detection` returns `None` as soon as a stage fails and only builds
its result dictionary after every stage has succeeded.  The fallible stages
are embedded as `Except`/`Option`-valued parameters; the GUI status updates
and progress callbacks are plain notifications out of the monitoring core
(spec §1) and are not modelled as failure sources. -/

/-- The `try` body of `run_analysis`: preprocessing, PCA, statistics and
control limits chained in order, stopping at the first failure. -/
def pca_pipeline {A B C R : Type} (preprocess : Except String A)
    (apply_pca : A → Except String B) (calc_statistics : B → Except String C)
    (calc_limits : C → Except String R) : Except String R :=
  preprocess.bind (fun a => (apply_pca a).bind
    (fun b => (calc_statistics b).bind calc_limits))

/-- `PCAAnalyzer.run_analysis`: on success stores the complete result bundle
and returns `True`; on failure returns `False` and keeps the previously
stored results. -/
def run_analysis {A B C R : Type} (old_results : Option R)
    (preprocess : Except String A) (apply_pca : A → Except String B)
    (calc_statistics : B → Except String C)
    (calc_limits : C → Except String R) : Bool × Option R :=
  match pca_pipeline preprocess apply_pca calc_statistics calc_limits with
  | Except.ok r => (true, some r)
  | Except.error _ => (false, old_results)

/-- `run_fault_detection` (src/ae.py): load, preprocess, train, then compute
statistics, control limits and anomaly sets on the test split; any stage
failure makes the whole call return `None`. -/
def run_fault_detection {D T R : Type}
    (load : Option D)
    (preprocess : D → Option (T × T))
    (train : T → T → Bool)
    (compute : T → Except String R) : Option R :=
  match load with
  | none => none
  | some d =>
    match preprocess d with
    | none => none
    | some (xtrain, xtest) =>
      if train xtrain xtest then
        match compute xtest with
        | Except.ok r => some r
        | Except.error _ => none
      else none

/-- C7: both entry points are total on their embedded stages: `run_analysis`
either succeeds with the complete bundle stored, or fails with an error
message while the stored results stay exactly the old ones; and
`run_fault_detection` either succeeds with the computed results after every
stage succeeded, or returns `None`. -/
theorem C7_pipeline_failure_policy {A B C R D T S : Type}
    (old_results : Option R) (preprocess : Except String A)
    (apply_pca : A → Except String B) (calc_statistics : B → Except String C)
    (calc_limits : C → Except String R) (load : Option D)
    (prep : D → Option (T × T)) (train : T → T → Bool)
    (compute : T → Except String S) :
    (((run_analysis old_results preprocess apply_pca calc_statistics
          calc_limits).1 = true ∧
      ∃ r, pca_pipeline preprocess apply_pca calc_statistics calc_limits =
          Except.ok r ∧
        (run_analysis old_results preprocess apply_pca calc_statistics
          calc_limits).2 = some r) ∨
     ((run_analysis old_results preprocess apply_pca calc_statistics
          calc_limits).1 = false ∧
      (∃ e, pca_pipeline preprocess apply_pca calc_statistics calc_limits =
          Except.error e) ∧
      (run_analysis old_results preprocess apply_pca calc_statistics
        calc_limits).2 = old_results)) ∧
    ((∃ d p r, load = some d ∧ prep d = some p ∧ train p.1 p.2 = true ∧
        compute p.2 = Except.ok r ∧
        run_fault_detection load prep train compute = some r) ∨
     run_fault_detection load prep train compute = none) := by
  constructor
  · cases hch : pca_pipeline preprocess apply_pca calc_statistics calc_limits with
    | ok r =>
      left
      refine ⟨?_, r, rfl, ?_⟩
      · simp [run_analysis, hch]
      · simp [run_analysis, hch]
    | error e =>
      right
      refine ⟨?_, ⟨e, rfl⟩, ?_⟩
      · simp [run_analysis, hch]
      · simp [run_analysis, hch]
  · cases load with
    | none => exact Or.inr rfl
    | some d =>
      cases hp : prep d with
      | none =>
        right
        simp [run_fault_detection, hp]
      | some p =>
        rcases p with ⟨xtr, xte⟩
        by_cases htr : train xtr xte = true
        · cases hcp : compute xte with
          | ok r =>
            left
            exact ⟨d, (xtr, xte), r, rfl, hp, htr, hcp,
              by simp [run_fault_detection, hp, htr, hcp]⟩
          | error e =>
            right
            simp [run_fault_detection, hp, htr, hcp]
        · right
          simp [run_fault_detection, hp, htr]

/-- Witness for C7 at concrete stage outcomes. -/
theorem C7_pipeline_failure_policy_witness :
    (((run_analysis (none : Option ℕ) (Except.ok 0 : Except String ℕ)
          (fun _ => (Except.ok 0 : Except String ℕ))
          (fun _ => (Except.ok 0 : Except String ℕ))
          (fun _ => (Except.ok 0 : Except String ℕ))).1 = true ∧
      ∃ r, pca_pipeline (Except.ok 0 : Except String ℕ)
          (fun _ => (Except.ok 0 : Except String ℕ))
          (fun _ => (Except.ok 0 : Except String ℕ))
          (fun _ => (Except.ok 0 : Except String ℕ)) = Except.ok r ∧
        (run_analysis (none : Option ℕ) (Except.ok 0 : Except String ℕ)
          (fun _ => (Except.ok 0 : Except String ℕ))
          (fun _ => (Except.ok 0 : Except String ℕ))
          (fun _ => (Except.ok 0 : Except String ℕ))).2 = some r) ∨
     ((run_analysis (none : Option ℕ) (Except.ok 0 : Except String ℕ)
          (fun _ => (Except.ok 0 : Except String ℕ))
          (fun _ => (Except.ok 0 : Except String ℕ))
          (fun _ => (Except.ok 0 : Except String ℕ))).1 = false ∧
      (∃ e, pca_pipeline (Except.ok 0 : Except String ℕ)
          (fun _ => (Except.ok 0 : Except String ℕ))
          (fun _ => (Except.ok 0 : Except String ℕ))
          (fun _ => (Except.ok 0 : Except String ℕ)) = Except.error e) ∧
      (run_analysis (none : Option ℕ) (Except.ok 0 : Except String ℕ)
        (fun _ => (Except.ok 0 : Except String ℕ))
        (fun _ => (Except.ok 0 : Except String ℕ))
        (fun _ => (Except.ok 0 : Except String ℕ))).2 = none)) ∧
    ((∃ d p r, (some (0 : ℕ)) = some d ∧
        (fun _ : ℕ => some ((0 : ℕ), (0 : ℕ))) d = some p ∧
        (fun _ _ : ℕ => true) p.1 p.2 = true ∧
        (fun _ : ℕ => (Except.ok 0 : Except String ℕ)) p.2 = Except.ok r ∧
        run_fault_detection (some (0 : ℕ))
          (fun _ : ℕ => some ((0 : ℕ), (0 : ℕ))) (fun _ _ : ℕ => true)
          (fun _ : ℕ => (Except.ok 0 : Except String ℕ)) = some r) ∨
     run_fault_detection (some (0 : ℕ))
       (fun _ : ℕ => some ((0 : ℕ), (0 : ℕ))) (fun _ _ : ℕ => true)
       (fun _ : ℕ => (Except.ok 0 : Except String ℕ)) = none) :=
  C7_pipeline_failure_policy (none : Option ℕ) (Except.ok 0 : Except String ℕ)
    (fun _ => (Except.ok 0 : Except String ℕ))
    (fun _ => (Except.ok 0 : Except String ℕ))
    (fun _ => (Except.ok 0 : Except String ℕ)) (some (0 : ℕ))
    (fun _ => some ((0 : ℕ), (0 : ℕ))) (fun _ _ => true)
    (fun _ => (Except.ok 0 : Except String ℕ))

/-! ## PCA monitoring statistics and the shuffled split
(`PCAAnalyzer.run_analysis` line 37 and `PCAAnalyzer._calculate_statistics`,
src/Pca.py lines 96-107)

```python
X_train, X_val = train_test_split(X_pca, test_size=0.2, random_state=42)
...
train_start, train_end = 0, X_train.shape[0]
val_start, val_end = train_end, train_end + X_val.shape[0]
SPE_train = np.sum((X_scaled[train_start:train_end] - X_train_reconstructed) ** 2, axis=1)
SPE_val = np.sum((X_scaled[val_start:val_end] - X_val_reconstructed) ** 2, axis=1)
```
`sklearn.model_selection.train_test_split` with its default `shuffle=True`
draws a permutation of the row indices (a fixed one for `random_state=42`,
not the identity), takes its first `n_test` entries as the test rows and the
remaining entries as the training rows.  The embedding takes the permutation
as an explicit parameter; the PCA forward and inverse transforms are abstract
function parameters. -/

/-- `train_test_split(X, test_size=.., random_state=42)` for a given shuffled
index permutation `perm`: `(train_rows, test_rows)`. -/
def train_test_split (perm : List ℕ) (n_test : ℕ) (X : List (List ℚ)) :
    List (List ℚ) × List (List ℚ) :=
  ((perm.drop n_test).map (fun i => X.getD i []),
   (perm.take n_test).map (fun i => X.getD i []))

/-- `np.sum((A - B) ** 2, axis=1)` for two row lists. -/
def spe_rows (a b : List (List ℚ)) : List ℚ :=
  (a.zip b).map (fun p => spe_row p.1 p.2)

/-- The `SPE_train` array of `_calculate_statistics`: residuals between
`X_scaled[0:n_train]` (original row order) and the reconstructions of the
training scores `X_train` (shuffled row order). -/
def pca_spe_train (inverse_transform : List ℚ → List ℚ)
    (X_scaled X_train : List (List ℚ)) : List ℚ :=
  spe_rows (X_scaled.take X_train.length) (X_train.map inverse_transform)

/-- The `SPE_val` array of `_calculate_statistics`: residuals between
`X_scaled[n_train:n_train+n_val]` and the reconstructions of the validation
scores. -/
def pca_spe_val (inverse_transform : List ℚ → List ℚ)
    (X_scaled X_train X_val : List (List ℚ)) : List ℚ :=
  spe_rows ((X_scaled.drop X_train.length).take X_val.length)
    (X_val.map inverse_transform)

/-- The SPE value claim C2 prescribes for observation `i` (stated from the
spec, to be compared with the code): the sum of squared differences between
observation `i`'s standardized vector and the PCA reconstruction of that same
observation's scores. -/
def claimed_spe (transform inverse_transform : List ℚ → List ℚ)
    (X_scaled : List (List ℚ)) (i : ℕ) : ℚ :=
  spe_row (X_scaled.getD i [])
    (inverse_transform (transform (X_scaled.getD i [])))

/-- C2 fails on the code: the split shuffles the rows of the score matrix,
but `_calculate_statistics` subtracts the reconstructions from
`X_scaled[0:n_train]` taken in the original row order, so the reported SPE
pairs each position with the reconstruction of a different observation.
Concretely: standardized data `[[1,0],[0,1],[0,0],[0,0],[0,0]]`, identity
forward and inverse transforms (a PCA retaining all components reconstructs
exactly), `n_test = 1` and shuffle permutation `[1,4,2,0,3]` — the code
reports `SPE_train[0] = 1`, while the value claim C2 prescribes for
observation 0 is `0`. -/
theorem C2_spe_row_mismatch :
    (pca_spe_train (fun r => r)
        [[(1 : ℚ), 0], [0, 1], [0, 0], [0, 0], [0, 0]]
        (train_test_split [1, 4, 2, 0, 3] 1
          (([[(1 : ℚ), 0], [0, 1], [0, 0], [0, 0], [0, 0]]).map
            (fun r => r))).1)[0]? = some 1 ∧
    claimed_spe (fun r => r) (fun r => r)
      [[(1 : ℚ), 0], [0, 1], [0, 0], [0, 0], [0, 0]] 0 = 0 ∧
    (1 : ℚ) ≠ 0 := by
  refine ⟨?_, ?_, by norm_num⟩
  · norm_num [pca_spe_train, spe_rows, spe_row, squared_residuals,
      train_test_split, List.zip]
  · norm_num [claimed_spe, spe_row, squared_residuals, List.zip]

end SystemWeb
